import Mathlib

/-!
# Verification of the lit-localize interchange codecs and transform engine

Shallow embedding of `packages/localize/src/formatters/xliff.ts`, the XLB
formatter, and `packages/localize/src/outputters/transform.ts`, together with
proofs of the specified properties (round trip, placeholder immutability,
fallback, flattening idempotence, error handling, duplicate policy).

XML documents are modelled at the DOM-tree level: the external `xmldom`
serializer/parser pair is treated as the identity on well-formed trees, so the
write path is modelled as the tree the formatter builds and the read path as
the tree-walk the formatter performs.
-/

namespace LitLocalize

/-- One element of message content (`messages.ts`): either a plain text run or
an opaque placeholder `{untranslatable: string}`. -/
inductive Content
  | text (s : String)
  | ph (untranslatable : String)
deriving DecidableEq, Repr

/-- A message as found in a translation bundle (`messages.ts`): a stable
identifier plus content. -/
structure Message where
  name : String
  contents : List Content
deriving DecidableEq, Repr

/-- A message as found in program source (`messages.ts`): content, identifier,
and the stack of description labels. -/
structure ProgramMessage where
  name : String
  contents : List Content
  descStack : List String
deriving DecidableEq, Repr

/-- One locale's set of translated messages (`messages.ts`). -/
structure Bundle where
  locale : String
  messages : List Message
deriving DecidableEq, Repr

/-! ## DOM-tree model of XML documents

Child lists are a dedicated mutually-inductive list type so that every
function over the tree is structurally recursive (and therefore computable by
the kernel on concrete documents). -/

mutual
/-- A DOM node: a text node, a processing instruction, or an element with
attributes and children. -/
inductive XNode
  | text (value : String)
  | procInst (target : String) (data : String)
  | element (tag : String) (attrs : List (String × String)) (children : XNodes)
/-- A list of DOM siblings. -/
inductive XNodes
  | nil
  | cons (head : XNode) (tail : XNodes)
end

/-- Concatenation of sibling lists. -/
def XNodes.append : XNodes → XNodes → XNodes
  | .nil, ys => ys
  | .cons x xs, ys => .cons x (xs.append ys)

/-- Build a sibling list from an ordinary list. -/
def XNodes.ofList : List XNode → XNodes
  | [] => .nil
  | n :: rest => .cons n (ofList rest)

/-- Number of siblings (DOM `length`). -/
def XNodes.length : XNodes → Nat
  | .nil => 0
  | .cons _ rest => rest.length + 1

/-- The child list of a node (empty for non-elements). -/
def childrenOf : XNode → XNodes
  | .element _ _ cs => cs
  | _ => .nil

/-- Attribute lookup on an element. -/
def getAttr (n : XNode) (name : String) : Option String :=
  match n with
  | .element _ attrs _ => (attrs.find? (fun p => p.1 = name)).map (·.2)
  | _ => none

mutual
/-- DOM `getElementsByTagName` on one node: the node itself if it is an
element with the given tag, followed by all matching descendants, in document
(preorder) order. -/
def elemsNamedNode (tag : String) : XNode → XNodes
  | .element t a cs =>
    XNodes.append (if t = tag then .cons (.element t a cs) .nil else .nil) (elemsNamed tag cs)
  | _ => .nil
/-- DOM `getElementsByTagName` over a sibling list. -/
def elemsNamed (tag : String) : XNodes → XNodes
  | .nil => .nil
  | .cons n rest => XNodes.append (elemsNamedNode tag n) (elemsNamed tag rest)
end

/-- Modelled from the spec: `getNonEmptyAttributeOrThrow` from the repository's
`formatters/xml-utils.ts`, which is not among the provided sources. Per spec
§4.2 a mandatory attribute that is absent (the model folds the empty value into
the same failure) is a fatal parse error. -/
def getNonEmptyAttributeOrThrow (el : XNode) (name : String) : Except String String :=
  match getAttr el name with
  | some v =>
    if v = "" then .error ("Expected attribute " ++ name ++ " to be set and non-empty")
    else .ok v
  | none => .error ("Expected attribute " ++ name ++ " to be set and non-empty")

/-- Modelled from the spec: `getOneElementByTagNameOrThrow` from the
repository's `formatters/xml-utils.ts`, which is not among the provided
sources. Per spec §4.2, absence of the expected element or more than one
candidate is a fatal parse error. -/
def getOneElementByTagNameOrThrow (docNodes : XNodes) (tag : String) : Except String XNode :=
  match elemsNamed tag docNodes with
  | .cons el .nil => .ok el
  | els => .error ("Expected exactly 1 <" ++ tag ++ ">, got " ++ toString els.length)

/-! ## Read paths (`XliffFormatter.parseXlif`, `XlbFormatter.parseXmb`) -/

/-- The child-node walk shared verbatim by `parseXlif` (xliff.ts lines
122–145, over `<target>` children) and `parseXmb` (part_001 lines 112–134,
over `<msg>` children): a text node becomes a text run; a `<ph>` element must
have exactly one child, a text node, whose value becomes the placeholder
payload; any other node is a fatal error naming the node's type and tag
(`container` is the enclosing tag used in the message: `trans-unit` or
`msg`). -/
def parseUnitContents (container : String) : XNodes → Except String (List Content)
  | .nil => .ok []
  | .cons (.text v) rest =>
    (parseUnitContents container rest).map (fun l => Content.text v :: l)
  | .cons (.element "ph" _ phChildren) rest =>
    match phChildren with
    | .cons (.text v) .nil =>
      (parseUnitContents container rest).map (fun l => Content.ph v :: l)
    | _ => .error "Expected <ph> to have exactly one text node"
  | .cons (.element tag _ _) _ =>
    .error ("Unexpected node in <" ++ container ++ ">: 1 " ++ tag)
  | .cons (.procInst target _) _ =>
    .error ("Unexpected node in <" ++ container ++ ">: 7 " ++ target)

/-- The `<trans-unit>` loop of `parseXlif` (xliff.ts lines 108–147): read the
`id` attribute, skip units with no `<target>`, reject more than one `<target>`,
and walk the single target's children. -/
def parseTransUnits : XNodes → Except String (List Message)
  | .nil => .ok []
  | .cons tu rest => do
    let name ← getNonEmptyAttributeOrThrow tu "id"
    match elemsNamed "target" (childrenOf tu) with
    | .nil => parseTransUnits rest
    | .cons tgt .nil => do
      let contents ← parseUnitContents "trans-unit" (childrenOf tgt)
      let ms ← parseTransUnits rest
      .ok (⟨name, contents⟩ :: ms)
    | targets =>
      .error ("Expected 0 or 1 <target> in <trans-unit>, got " ++ toString targets.length)

/-- `XliffFormatter.parseXlif` (xliff.ts lines 99–149): find the single
`<file>` element anywhere in the document, read its `target-language`
attribute, and parse every `trans-unit` descendant of it. -/
def parseXlif (docNodes : XNodes) : Except String Bundle := do
  let file ← getOneElementByTagNameOrThrow docNodes "file"
  let locale ← getNonEmptyAttributeOrThrow file "target-language"
  let messages ← parseTransUnits (elemsNamed "trans-unit" (childrenOf file))
  .ok ⟨locale, messages⟩

/-- The `<msg>` loop of `parseXmb`: read the `name` attribute and walk the
element's children. -/
def parseMsgNodes : XNodes → Except String (List Message)
  | .nil => .ok []
  | .cons m rest => do
    let name ← getNonEmptyAttributeOrThrow m "name"
    let contents ← parseUnitContents "msg" (childrenOf m)
    let ms ← parseMsgNodes rest
    .ok (⟨name, contents⟩ :: ms)

/-- `XlbFormatter.parseXmb` (part_001 lines 102–138): find the single
`<localizationbundle>` element, read its `locale` attribute, and parse every
`<msg>` element of the whole document. -/
def parseXmb (docNodes : XNodes) : Except String Bundle := do
  let bundle ← getOneElementByTagNameOrThrow docNodes "localizationbundle"
  let locale ← getNonEmptyAttributeOrThrow bundle "locale"
  let messages ← parseMsgNodes (elemsNamed "msg" docNodes)
  .ok ⟨locale, messages⟩

/-! ## Write paths (`XliffFormatter.encodeLocale`, `XlbFormatter.writeOutput`) -/

/-- Modelled from the spec (§4.1): `makeMessageIdMap` from the repository's
`messages.ts`, which is not among the provided sources, builds the
name→Message lookup from an ordered list of Messages; modelled with JavaScript
`Map` insertion semantics (inserting an existing key overwrites the previous
value, so of duplicate names the last occurrence is the one retrieved). -/
def makeMessageIdMap (msgs : List Message) : String → Option Message :=
  msgs.foldl (fun acc m => fun n => if n = m.name then some m else acc n) (fun _ => none)

/-- The indentation text node inserted by the local `indent` helper of both
formatters: `'\n' + Array(level + 1).join('  ')`, i.e. a newline followed by
two spaces per `level`. -/
def indentText : Nat → String
  | 0 => "\n"
  | n + 1 => indentText n ++ "  "

/-- `XliffFormatter.encodeContents` (xliff.ts lines 285–303) with its running
placeholder index: a string becomes a text node, a placeholder becomes a
`<ph>` element with a zero-based positional `id` attribute and its payload as
single text child. -/
def encodeContentsAux : List Content → Nat → XNodes
  | [], _ => .nil
  | .text s :: rest, phIdx => .cons (.text s) (encodeContentsAux rest phIdx)
  | .ph u :: rest, phIdx =>
    .cons (.element "ph" [("id", toString phIdx)] (.cons (.text u) .nil))
      (encodeContentsAux rest (phIdx + 1))

/-- `XliffFormatter.encodeContents`: the index starts at 0. -/
def encodeContents (contents : List Content) : XNodes :=
  encodeContentsAux contents 0

/-- One `<trans-unit>` element as built by `encodeLocale` (xliff.ts lines
239–273): indented children, an optional `<note>` joining the description
stack with " / ", the `<source>`, and — when a translation with this name
exists — a `<target>`. -/
def encodeTransUnit (m : ProgramMessage) (translation : Option Message) : XNode :=
  .element "trans-unit" [("id", m.name)]
    (.cons (.text (indentText 1))
      (XNodes.append
        (if m.descStack = [] then .nil
         else .cons (.element "note" []
                (.cons (.text (String.intercalate " / " m.descStack)) .nil))
              (.cons (.text (indentText 1)) .nil))
        (.cons (.element "source" [] (encodeContents m.contents))
          (XNodes.append
            (match translation with
             | some t => .cons (.text (indentText 1))
                 (.cons (.element "target" [] (encodeContents t.contents)) .nil)
             | none => .nil)
            (.cons (.text (indentText 0)) .nil)))))

/-- The interleaved `<trans-unit>`/indentation children of the `body` element
(the per-message loop of xliff.ts lines 239–273). -/
def encodeUnits : List ProgramMessage → (String → Option Message) → XNodes
  | [], _ => .nil
  | m :: rest, lookup =>
    .cons (encodeTransUnit m (lookup m.name))
      (.cons (.text (indentText 0)) (encodeUnits rest lookup))

/-- The `body` element built by `encodeLocale` (xliff.ts lines 235–273). -/
def encodeBody (sourceMessages : List ProgramMessage) (lookup : String → Option Message) : XNode :=
  .element "body" [] (.cons (.text (indentText 0)) (encodeUnits sourceMessages lookup))

/-- The `file` element built by `encodeLocale` (xliff.ts lines 221–232). -/
def encodeFile (sourceMessages : List ProgramMessage) (sourceLocale targetLocale : String)
    (lookup : String → Option Message) : XNode :=
  .element "file"
    [("target-language", targetLocale), ("source-language", sourceLocale),
     ("original", "lit-localize-inputs"), ("datatype", "plaintext")]
    (.ofList [.text (indentText 0), encodeBody sourceMessages lookup, .text (indentText 0)])

/-- The `xliff` root element built by `encodeLocale` (xliff.ts lines 210–218). -/
def encodeXliffRoot (sourceMessages : List ProgramMessage) (sourceLocale targetLocale : String)
    (lookup : String → Option Message) : XNode :=
  .element "xliff"
    [("version", "1.2"), ("xmlns", "http://www.w3.org/2001/XMLSchema-instance"),
     ("xsi:schemaLocation", "urn:oasis:names:tc:xliff:document:1.2 xliff-core-1.2-strict.xsd")]
    (.ofList [.text (indentText 0),
      encodeFile sourceMessages sourceLocale targetLocale lookup, .text (indentText 0)])

/-- `XliffFormatter.encodeLocale` (xliff.ts lines 194–280), at the DOM-tree
level: the document node list the formatter builds before handing the tree to
the external XML serializer. -/
def encodeLocale (sourceMessages : List ProgramMessage) (sourceLocale targetLocale : String)
    (targetMessages : List Message) : XNodes :=
  .ofList [.procInst "xml" "version=\"1.0\" encoding=\"UTF-8\"",
    .text (indentText 0),
    encodeXliffRoot sourceMessages sourceLocale targetLocale (makeMessageIdMap targetMessages),
    .text (indentText 0)]

/-- Message contents as children of a `<msg>` element in the XLB writer
(part_001 lines 165–174): text nodes and `<ph>` elements (no `id` attribute in
this format). -/
def encodeXlbContents : List Content → XNodes
  | [] => .nil
  | .text s :: rest => .cons (.text s) (encodeXlbContents rest)
  | .ph u :: rest => .cons (.element "ph" [] (.cons (.text u) .nil)) (encodeXlbContents rest)

/-- One `<msg>` element as built by `XlbFormatter.writeOutput` (part_001 lines
157–175): `name` attribute, optional `desc` attribute joining the description
stack with " / ", contents as direct children. -/
def encodeXlbMsg (m : ProgramMessage) : XNode :=
  .element "msg"
    (("name", m.name) ::
      (if m.descStack = [] then [] else [("desc", String.intercalate " / " m.descStack)]))
    (encodeXlbContents m.contents)

/-- The interleaved indentation/`<msg>` children of the `messages` element. -/
def encodeXlbMsgList : List ProgramMessage → XNodes
  | [] => .nil
  | m :: rest => .cons (.text (indentText 2)) (.cons (encodeXlbMsg m) (encodeXlbMsgList rest))

/-- The `messages` element built by `XlbFormatter.writeOutput`. -/
def encodeXlbMessagesNode (sourceMessages : List ProgramMessage) : XNode :=
  .element "messages" []
    (XNodes.append (encodeXlbMsgList sourceMessages) (.cons (.text (indentText 1)) .nil))

/-- The `localizationbundle` root element built by `XlbFormatter.writeOutput`. -/
def encodeXlbBundle (sourceMessages : List ProgramMessage) (sourceLocale : String) : XNode :=
  .element "localizationbundle" [("locale", sourceLocale)]
    (.ofList [.text (indentText 1), encodeXlbMessagesNode sourceMessages, .text (indentText 0)])

/-- `XlbFormatter.writeOutput` (part_001 lines 143–179) at the DOM-tree level:
the document node list built before serialization. -/
def encodeXlb (sourceMessages : List ProgramMessage) (sourceLocale : String) : XNodes :=
  .ofList [.procInst "xml" "version=\"1.0\" encoding=\"UTF-8\"",
    .text (indentText 0), encodeXlbBundle sourceMessages sourceLocale, .text (indentText 0)]

/-! ## Lemmas about the DOM search -/

@[simp]
theorem XNodes.nil_append (ys : XNodes) : XNodes.append .nil ys = ys := rfl

@[simp]
theorem XNodes.cons_append (x : XNode) (xs ys : XNodes) :
    XNodes.append (.cons x xs) ys = .cons x (XNodes.append xs ys) := rfl

@[simp]
theorem XNodes.append_nil : ∀ (xs : XNodes), XNodes.append xs .nil = xs
  | .nil => rfl
  | .cons x rest => by simp [XNodes.append, XNodes.append_nil rest]

@[simp]
theorem XNodes.append_assoc : ∀ (xs ys zs : XNodes),
    XNodes.append (XNodes.append xs ys) zs = XNodes.append xs (XNodes.append ys zs)
  | .nil, _, _ => rfl
  | .cons x rest, ys, zs => by simp [XNodes.append, XNodes.append_assoc rest ys zs]

@[simp]
theorem elemsNamed_nil (tag : String) : elemsNamed tag .nil = .nil := rfl

@[simp]
theorem elemsNamed_append (tag : String) : ∀ (a b : XNodes),
    elemsNamed tag (XNodes.append a b) =
      XNodes.append (elemsNamed tag a) (elemsNamed tag b)
  | .nil, b => rfl
  | .cons n rest, b => by
    simp [elemsNamed, XNodes.append, elemsNamed_append tag rest b]

@[simp]
theorem elemsNamed_cons (tag : String) (n : XNode) (rest : XNodes) :
    elemsNamed tag (.cons n rest) =
      XNodes.append (elemsNamedNode tag n) (elemsNamed tag rest) := rfl

@[simp]
theorem elemsNamedNode_text (tag v : String) : elemsNamedNode tag (.text v) = .nil := rfl

@[simp]
theorem elemsNamedNode_procInst (tag t d : String) :
    elemsNamedNode tag (.procInst t d) = .nil := rfl

@[simp]
theorem elemsNamedNode_element (tag t : String) (a : List (String × String)) (cs : XNodes) :
    elemsNamedNode tag (.element t a cs) =
      XNodes.append (if t = tag then .cons (.element t a cs) .nil else .nil)
        (elemsNamed tag cs) := rfl

@[simp]
theorem childrenOf_element (t : String) (a : List (String × String)) (cs : XNodes) :
    childrenOf (XNode.element t a cs) = cs := rfl

@[simp]
theorem XNodes.ofList_nil : XNodes.ofList [] = .nil := rfl

@[simp]
theorem XNodes.ofList_cons (n : XNode) (rest : List XNode) :
    XNodes.ofList (n :: rest) = .cons n (XNodes.ofList rest) := rfl

theorem elemsNamed_encodeContentsAux (tag : String) (h : tag ≠ "ph") :
    ∀ (cs : List Content) (i : Nat), elemsNamed tag (encodeContentsAux cs i) = .nil := by
  intro cs
  induction cs with
  | nil => intro i; rfl
  | cons c rest ih =>
    intro i
    cases c with
    | text s => simp [encodeContentsAux, ih]
    | ph u => simp [encodeContentsAux, ih, if_neg (Ne.symm h)]

theorem elemsNamed_encodeXlbContents (tag : String) (h : tag ≠ "ph") :
    ∀ (cs : List Content), elemsNamed tag (encodeXlbContents cs) = .nil := by
  intro cs
  induction cs with
  | nil => rfl
  | cons c rest ih =>
    cases c with
    | text s => simp [encodeXlbContents, ih]
    | ph u => simp [encodeXlbContents, ih, if_neg (Ne.symm h)]

/-- Inside a `<trans-unit>` built by the encoder there are no elements other
than `note`, `source`, `target` and `ph`. -/
theorem elemsNamed_transUnitChildren (tag : String) (m : ProgramMessage)
    (tr : Option Message) (h1 : tag ≠ "note") (h2 : tag ≠ "source")
    (h3 : tag ≠ "target") (h4 : tag ≠ "ph") :
    elemsNamed tag (childrenOf (encodeTransUnit m tr)) = .nil := by
  unfold encodeTransUnit
  rcases tr with _ | t <;>
    rcases hd : m.descStack with _ | ⟨d, ds⟩ <;>
      simp [hd, elemsNamed_encodeContentsAux tag h4, encodeContents,
        if_neg (Ne.symm h1), if_neg (Ne.symm h2), if_neg (Ne.symm h3)]

/-- The `<target>` elements inside an encoded `<trans-unit>`: exactly one when
a translation was attached, none otherwise. -/
theorem elemsNamed_target_transUnit (m : ProgramMessage) (tr : Option Message) :
    elemsNamed "target" (childrenOf (encodeTransUnit m tr)) =
      match tr with
      | some t => .cons (.element "target" [] (encodeContents t.contents)) .nil
      | none => .nil := by
  unfold encodeTransUnit
  rcases tr with _ | t <;>
    rcases hd : m.descStack with _ | ⟨d, ds⟩ <;>
      simp [hd, elemsNamed_encodeContentsAux "target" (by decide), encodeContents]

theorem getAttr_encodeTransUnit (m : ProgramMessage) (tr : Option Message) :
    getAttr (encodeTransUnit m tr) "id" = some m.name := by
  unfold encodeTransUnit
  simp [getAttr]

/-- The `trans-unit` elements found among the encoded units are exactly the
encoded units, in source order. -/
theorem elemsNamed_transUnit_units (sm : List ProgramMessage) (lookup : String → Option Message) :
    elemsNamed "trans-unit" (encodeUnits sm lookup) =
      XNodes.ofList (sm.map (fun m => encodeTransUnit m (lookup m.name))) := by
  induction sm with
  | nil => rfl
  | cons m rest ih =>
    have hunit := elemsNamed_transUnitChildren "trans-unit" m (lookup m.name)
      (by decide) (by decide) (by decide) (by decide)
    simp only [encodeUnits, List.map_cons, elemsNamed_cons, XNodes.ofList_cons]
    rw [show encodeTransUnit m (lookup m.name) =
      XNode.element "trans-unit" [("id", m.name)] (childrenOf (encodeTransUnit m (lookup m.name)))
      from by unfold encodeTransUnit; rfl]
    simp [ih, hunit]

/-- No tag other than `trans-unit` and the unit-internal ones occurs among the
encoded units. -/
theorem elemsNamed_units_other (tag : String) (sm : List ProgramMessage)
    (lookup : String → Option Message) (h0 : tag ≠ "trans-unit") (h1 : tag ≠ "note")
    (h2 : tag ≠ "source") (h3 : tag ≠ "target") (h4 : tag ≠ "ph") :
    elemsNamed tag (encodeUnits sm lookup) = .nil := by
  induction sm with
  | nil => rfl
  | cons m rest ih =>
    have hunit := elemsNamed_transUnitChildren tag m (lookup m.name) h1 h2 h3 h4
    simp only [encodeUnits, elemsNamed_cons]
    rw [show encodeTransUnit m (lookup m.name) =
      XNode.element "trans-unit" [("id", m.name)] (childrenOf (encodeTransUnit m (lookup m.name)))
      from by unfold encodeTransUnit; rfl]
    simp [ih, hunit, if_neg (Ne.symm h0)]

/-- Re-parsing encoded contents restores them exactly (xliff.ts
`encodeContents` then the `<target>` child walk). -/
theorem parseUnitContents_encodeContentsAux (container : String) :
    ∀ (cs : List Content) (i : Nat),
      parseUnitContents container (encodeContentsAux cs i) = .ok cs := by
  intro cs
  induction cs with
  | nil => intro i; rfl
  | cons c rest ih =>
    intro i
    cases c with
    | text s => simp [encodeContentsAux, parseUnitContents, ih, Except.map]
    | ph u => simp [encodeContentsAux, parseUnitContents, ih, Except.map]

/-- Re-parsing XLB-encoded contents restores them exactly. -/
theorem parseUnitContents_encodeXlbContents (container : String) :
    ∀ (cs : List Content),
      parseUnitContents container (encodeXlbContents cs) = .ok cs := by
  intro cs
  induction cs with
  | nil => rfl
  | cons c rest ih =>
    cases c with
    | text s => simp [encodeXlbContents, parseUnitContents, ih, Except.map]
    | ph u => simp [encodeXlbContents, parseUnitContents, ih, Except.map]

/-- Parsing the encoded unit list yields, for every source message that has a
translation, a message with that identifier and the translation's contents;
untranslated units are skipped. -/
theorem parseTransUnits_encoded (sm : List ProgramMessage) (lookup : String → Option Message)
    (hn : ∀ m ∈ sm, m.name ≠ "") :
    parseTransUnits (XNodes.ofList (sm.map (fun m => encodeTransUnit m (lookup m.name)))) =
      .ok (sm.filterMap (fun m =>
        (lookup m.name).map (fun t => (⟨m.name, t.contents⟩ : Message)))) := by
  induction sm with
  | nil => rfl
  | cons m rest ih =>
    have hname : getNonEmptyAttributeOrThrow (encodeTransUnit m (lookup m.name)) "id" =
        .ok m.name := by
      simp [getNonEmptyAttributeOrThrow, getAttr_encodeTransUnit, hn m (by simp)]
    have htgt := elemsNamed_target_transUnit m (lookup m.name)
    have ihrest := ih (fun x hx => hn x (by simp [hx]))
    simp only [List.map_cons, XNodes.ofList_cons, parseTransUnits, hname]
    rcases hl : lookup m.name with _ | t
    · rw [hl] at htgt
      simp only at htgt
      simp [htgt, ihrest, List.filterMap_cons, hl, Except.bind, Bind.bind]
    · rw [hl] at htgt
      simp only at htgt
      simp [htgt, ihrest, List.filterMap_cons, hl, Except.bind, Bind.bind,
        parseUnitContents_encodeContentsAux, encodeContents]

/-- The encoded XLIFF document contains exactly one `<file>` element. -/
theorem elemsNamed_file_encodeLocale (sm : List ProgramMessage) (sl tl : String)
    (tm : List Message) :
    elemsNamed "file" (encodeLocale sm sl tl tm) =
      .cons (encodeFile sm sl tl (makeMessageIdMap tm)) .nil := by
  simp [encodeLocale, encodeXliffRoot, encodeFile, encodeBody,
    elemsNamed_units_other "file" sm (makeMessageIdMap tm)
      (by decide) (by decide) (by decide) (by decide) (by decide)]

/-- The XLIFF round-trip equation: parsing the encoded document succeeds and
returns, in source order, one message per translated source message, carrying
the source message's identifier and the translation's contents verbatim. -/
theorem parseXlif_encodeLocale (sm : List ProgramMessage) (sl tl : String)
    (tm : List Message) (htl : tl ≠ "") (hn : ∀ m ∈ sm, m.name ≠ "") :
    parseXlif (encodeLocale sm sl tl tm) =
      .ok ⟨tl, sm.filterMap (fun m =>
        (makeMessageIdMap tm m.name).map (fun t => (⟨m.name, t.contents⟩ : Message)))⟩ := by
  have hfile := elemsNamed_file_encodeLocale sm sl tl tm
  have hunits : elemsNamed "trans-unit" (childrenOf (encodeFile sm sl tl (makeMessageIdMap tm))) =
      XNodes.ofList (sm.map (fun m => encodeTransUnit m (makeMessageIdMap tm m.name))) := by
    simp [encodeFile, encodeBody, elemsNamed_transUnit_units]
  unfold parseXlif getOneElementByTagNameOrThrow
  rw [hfile]
  simp only [Except.bind, Bind.bind]
  have hattr : getNonEmptyAttributeOrThrow (encodeFile sm sl tl (makeMessageIdMap tm))
      "target-language" = .ok tl := by
    simp [getNonEmptyAttributeOrThrow, getAttr, encodeFile, List.find?, htl]
  rw [hattr, hunits, parseTransUnits_encoded sm (makeMessageIdMap tm) hn]

/-- The encoded XLB document contains exactly one `<localizationbundle>`. -/
theorem elemsNamed_bundle_encodeXlb (sm : List ProgramMessage) (sl : String) :
    elemsNamed "localizationbundle" (encodeXlb sm sl) = .cons (encodeXlbBundle sm sl) .nil := by
  have hmsgs : ∀ ms : List ProgramMessage,
      elemsNamed "localizationbundle" (encodeXlbMsgList ms) = .nil := by
    intro ms
    induction ms with
    | nil => rfl
    | cons m rest ih =>
      simp only [encodeXlbMsgList, elemsNamed_cons]
      rw [show encodeXlbMsg m = XNode.element "msg"
        (("name", m.name) ::
          (if m.descStack = [] then [] else [("desc", String.intercalate " / " m.descStack)]))
        (encodeXlbContents m.contents) from rfl]
      simp [ih, elemsNamed_encodeXlbContents "localizationbundle" (by decide)]
  simp [encodeXlb, encodeXlbBundle, encodeXlbMessagesNode, hmsgs]

/-- The `<msg>` elements of the encoded XLB document are exactly the encoded
messages, in source order. -/
theorem elemsNamed_msg_encodeXlb (sm : List ProgramMessage) (sl : String) :
    elemsNamed "msg" (encodeXlb sm sl) = XNodes.ofList (sm.map encodeXlbMsg) := by
  have hmsgs : ∀ ms : List ProgramMessage,
      elemsNamed "msg" (encodeXlbMsgList ms) = XNodes.ofList (ms.map encodeXlbMsg) := by
    intro ms
    induction ms with
    | nil => rfl
    | cons m rest ih =>
      simp only [encodeXlbMsgList, List.map_cons, elemsNamed_cons, XNodes.ofList_cons]
      rw [show encodeXlbMsg m = XNode.element "msg"
        (("name", m.name) ::
          (if m.descStack = [] then [] else [("desc", String.intercalate " / " m.descStack)]))
        (encodeXlbContents m.contents) from rfl]
      simp [ih, elemsNamed_encodeXlbContents "msg" (by decide)]
  simp [encodeXlb, encodeXlbBundle, encodeXlbMessagesNode, hmsgs]

/-- Parsing the encoded `<msg>` list restores every source message's name and
contents exactly. -/
theorem parseMsgNodes_encoded (sm : List ProgramMessage) (hn : ∀ m ∈ sm, m.name ≠ "") :
    parseMsgNodes (XNodes.ofList (sm.map encodeXlbMsg)) =
      .ok (sm.map (fun m => (⟨m.name, m.contents⟩ : Message))) := by
  induction sm with
  | nil => rfl
  | cons m rest ih =>
    have hname : getNonEmptyAttributeOrThrow (encodeXlbMsg m) "name" = .ok m.name := by
      simp [getNonEmptyAttributeOrThrow, getAttr, encodeXlbMsg, List.find?, hn m (by simp)]
    have hch : childrenOf (encodeXlbMsg m) = encodeXlbContents m.contents := rfl
    simp only [List.map_cons, XNodes.ofList_cons, parseMsgNodes, hname, hch,
      Except.bind, Bind.bind, parseUnitContents_encodeXlbContents,
      ih (fun x hx => hn x (by simp [hx]))]

/-- The XLB round-trip equation: parsing the document written for the source
messages returns exactly those messages (names and contents), for the source
locale. -/
theorem parseXmb_encodeXlb (sm : List ProgramMessage) (sl : String) (hsl : sl ≠ "")
    (hn : ∀ m ∈ sm, m.name ≠ "") :
    parseXmb (encodeXlb sm sl) =
      .ok ⟨sl, sm.map (fun m => (⟨m.name, m.contents⟩ : Message))⟩ := by
  unfold parseXmb getOneElementByTagNameOrThrow
  rw [elemsNamed_bundle_encodeXlb]
  simp only [Except.bind, Bind.bind]
  have hattr : getNonEmptyAttributeOrThrow (encodeXlbBundle sm sl) "locale" = .ok sl := by
    simp [getNonEmptyAttributeOrThrow, getAttr, encodeXlbBundle, List.find?, hsl]
  rw [hattr, elemsNamed_msg_encodeXlb, parseMsgNodes_encoded sm hn]

/-! ## The name→Message lookup -/

/-- Unfolding the fold of `makeMessageIdMap`: the lookup returns the last
insertion for the requested name, falling back to the initial map. -/
theorem makeMessageIdMap_foldl (tm : List Message) :
    ∀ (acc : String → Option Message) (n : String),
      tm.foldl (fun acc m => fun x => if x = m.name then some m else acc x) acc n =
        (tm.reverse.find? (fun m => m.name == n)).or (acc n) := by
  induction tm with
  | nil => intro acc n; simp
  | cons m rest ih =>
    intro acc n
    simp only [List.foldl_cons, List.reverse_cons, List.find?_append]
    rw [ih]
    rcases h : rest.reverse.find? (fun m => m.name == n) with _ | t
    · cases hb : (m.name == n) with
      | true =>
        have he : m.name = n := by simpa using hb
        simp [h, List.find?, Option.or, hb, he]
      | false =>
        have he : n ≠ m.name := fun hnn => (by simpa using hb : ¬ m.name = n) hnn.symm
        simp [h, List.find?, Option.or, hb, he]
    · simp [h, Option.or]

/-- The lookup built by `makeMessageIdMap` retrieves the *last* message in the
list bearing the requested name. -/
theorem makeMessageIdMap_eq_find? (tm : List Message) (n : String) :
    makeMessageIdMap tm n = tm.reverse.find? (fun m => m.name == n) := by
  have h := makeMessageIdMap_foldl tm (fun _ => none) n
  simpa [makeMessageIdMap, Option.or_none] using h

/-- Under distinct names, the lookup finds exactly the member with the
requested name. -/
theorem makeMessageIdMap_some_iff (tm : List Message) (n : String) (t : Message)
    (hnd : (tm.map Message.name).Nodup) :
    makeMessageIdMap tm n = some t ↔ t ∈ tm ∧ t.name = n := by
  rw [makeMessageIdMap_eq_find?]
  constructor
  · intro h
    refine ⟨List.mem_reverse.mp (List.mem_of_find?_eq_some h), ?_⟩
    have hp := List.find?_some h
    simpa using hp
  · rintro ⟨hmem, hname⟩
    rcases hu : tm.reverse.find? (fun m => m.name == n) with _ | u
    · rw [List.find?_eq_none] at hu
      exact absurd (by simp [hname]) (hu t (List.mem_reverse.mpr hmem))
    · have humem := List.mem_reverse.mp (List.mem_of_find?_eq_some hu)
      have hup : u.name = n := by simpa using List.find?_some hu
      have : u = t :=
        List.inj_on_of_nodup_map hnd humem hmem (by rw [hup, hname])
      rw [hu, this]

/-- The identifiers of the messages recovered by the XLIFF round trip form a
sublist of the source identifiers. -/
theorem roundTrip_names_sublist (sm : List ProgramMessage) (lookup : String → Option Message) :
    ((sm.filterMap (fun m =>
      (lookup m.name).map (fun t => (⟨m.name, t.contents⟩ : Message)))).map Message.name).Sublist
      (sm.map ProgramMessage.name) := by
  induction sm with
  | nil => simp
  | cons m rest ih =>
    rcases h : lookup m.name with _ | t
    · simp only [List.filterMap_cons, h, List.map_cons]
      exact ih.cons _
    · simp only [List.filterMap_cons, h, Option.map_some, List.map_cons]
      exact ih.cons₂ _

/-- With distinct source names, distinct translation names, and every
translation keyed by a source identifier, the XLIFF round trip recovers the
translated messages exactly, up to reordering into source order. -/
theorem roundTrip_perm (sm : List ProgramMessage) (tm : List Message)
    (hndsm : (sm.map ProgramMessage.name).Nodup)
    (hndtm : (tm.map Message.name).Nodup)
    (hsub : ∀ t ∈ tm, t.name ∈ sm.map ProgramMessage.name) :
    (sm.filterMap (fun m =>
      (makeMessageIdMap tm m.name).map (fun t => (⟨m.name, t.contents⟩ : Message)))).Perm tm := by
  apply List.perm_of_nodup_nodup_toFinset_eq
  · exact ((roundTrip_names_sublist sm (makeMessageIdMap tm)).nodup hndsm).of_map
  · exact hndtm.of_map
  · apply Finset.ext
    intro a
    simp only [List.mem_toFinset, List.mem_filterMap, Option.map_eq_some']
    constructor
    · rintro ⟨m, hm, t, ht, rfl⟩
      obtain ⟨htm, hname⟩ := (makeMessageIdMap_some_iff tm m.name t hndtm).mp ht
      have heq : (⟨m.name, t.contents⟩ : Message) = t := by
        cases t with
        | mk tn tc =>
          have h2 : tn = m.name := hname
          rw [h2]
      rw [heq]; exact htm
    · intro ha
      obtain ⟨m, hm, hmn⟩ := List.mem_map.mp (hsub a ha)
      refine ⟨m, hm, a, (makeMessageIdMap_some_iff tm m.name a hndtm).mpr ⟨ha, hmn.symm⟩, ?_⟩
      cases a with
      | mk an ac =>
        have h2 : m.name = an := hmn
        rw [h2]

/-! ## Claim C1 -/

/-- C1 (round trip): serializing a ProgramMessage list via a codec's write
path and parsing the result via the same codec's read path, for the same
locale, yields a Bundle whose messages' identifiers and content sequences
exactly match the originals. For XLB the parsed bundle equals the source
messages verbatim; for XLIFF (given the supplied translations are keyed by
the source identifiers) the parsed bundle is exactly the supplied translated
messages, reordered into source order, with every placeholder payload and
text run byte-identical (here recovered without even re-segmentation). -/
theorem claim_C1_roundTrip
    (sm : List ProgramMessage) (sl tl : String) (tm : List Message)
    (hsl : sl ≠ "") (htl : tl ≠ "") (hn : ∀ m ∈ sm, m.name ≠ "")
    (hndsm : (sm.map ProgramMessage.name).Nodup)
    (hndtm : (tm.map Message.name).Nodup)
    (hsub : ∀ t ∈ tm, t.name ∈ sm.map ProgramMessage.name) :
    parseXmb (encodeXlb sm sl) = .ok ⟨sl, sm.map (fun m => (⟨m.name, m.contents⟩ : Message))⟩
    ∧ parseXlif (encodeLocale sm sl tl tm) = .ok ⟨tl, sm.filterMap (fun m =>
        (makeMessageIdMap tm m.name).map (fun t => (⟨m.name, t.contents⟩ : Message)))⟩
    ∧ (sm.filterMap (fun m =>
        (makeMessageIdMap tm m.name).map (fun t => (⟨m.name, t.contents⟩ : Message)))).Perm tm :=
  ⟨parseXmb_encodeXlb sm sl hsl hn,
   parseXlif_encodeLocale sm sl tl tm htl hn,
   roundTrip_perm sm tm hndsm hndtm hsub⟩

/-- The spec's concrete round-trip scenario: the `greeting` message with bold
markup placeholders. -/
def roundTripSampleSource : List ProgramMessage :=
  [⟨"greeting", [.text "Hello ", .ph "<b>", .text "World", .ph "</b>"], []⟩]

/-- The Spanish translation of the sample, placeholders untouched. -/
def roundTripSampleTranslations : List Message :=
  [⟨"greeting", [.text "Hola ", .ph "<b>", .text "Mundo", .ph "</b>"]⟩]

/-- Witness for C1 at the spec's concrete scenario. -/
theorem claim_C1_roundTrip_witness :
    parseXmb (encodeXlb roundTripSampleSource "en")
      = .ok ⟨"en", roundTripSampleSource.map (fun m => (⟨m.name, m.contents⟩ : Message))⟩
    ∧ parseXlif (encodeLocale roundTripSampleSource "en" "es" roundTripSampleTranslations)
      = .ok ⟨"es", roundTripSampleSource.filterMap (fun m =>
          (makeMessageIdMap roundTripSampleTranslations m.name).map
            (fun t => (⟨m.name, t.contents⟩ : Message)))⟩
    ∧ (roundTripSampleSource.filterMap (fun m =>
        (makeMessageIdMap roundTripSampleTranslations m.name).map
          (fun t => (⟨m.name, t.contents⟩ : Message)))).Perm roundTripSampleTranslations :=
  claim_C1_roundTrip roundTripSampleSource "en" "es" roundTripSampleTranslations
    (by decide) (by decide) (by decide) (by decide) (by decide) (by decide)

/-! ## Claim C10 -/

/-- An XLB document whose `<msg>` sits *outside* the `<localizationbundle>`
element (a sibling of it), not under `<messages>`. -/
def strayMsgXlbDoc : XNodes :=
  .ofList [.element "localizationbundle" [("locale", "pt")]
      (.ofList [.element "messages" [] .nil]),
    .element "msg" [("name", "stray")] (.ofList [.text "ola"])]

/-- An XLIFF document whose `<trans-unit>` is wrapped in an unexpected extra
element below `<file>` (not inside a `<body>`), and whose `<target>` is
likewise wrapped in an extra element inside the unit. -/
def deepUnitXliffDoc : XNodes :=
  .ofList [.element "xliff" []
    (.ofList [.element "file" [("target-language", "es")]
      (.ofList [.element "wrapper" []
        (.ofList [.element "trans-unit" [("id", "deep")]
          (.ofList [.element "extra" []
            (.ofList [.element "target" [] (.ofList [.text "hola"])])])])])])]

/-- C10: both deserializers locate translatable units by tag name anywhere in
the document subtree: the XLB parser picks up a `<msg>` outside the
`<localizationbundle>`, and the XLIFF parser picks up a `<trans-unit>` (and
its `<target>`) at unexpected nesting depths. -/
theorem claim_C10_descendantSearch :
    parseXmb strayMsgXlbDoc = .ok ⟨"pt", [⟨"stray", [.text "ola"]⟩]⟩
    ∧ parseXlif deepUnitXliffDoc = .ok ⟨"es", [⟨"deep", [.text "hola"]⟩]⟩ :=
  ⟨rfl, rfl⟩

/-! ## Claim C6 -/

/-- Whether `needle` starts `hay`. -/
def isPrefixOfB : List Char → List Char → Bool
  | [], _ => true
  | _ :: _, [] => false
  | a :: as, b :: bs => a == b && isPrefixOfB as bs

/-- Whether `needle` occurs contiguously inside `hay`. -/
def occursIn (needle : List Char) : List Char → Bool
  | [] => isPrefixOfB needle []
  | c :: rest => isPrefixOfB needle (c :: rest) || occursIn needle rest

/-- Whether the string `needle` occurs as a substring of `hay`. -/
def strOccurs (needle hay : String) : Bool :=
  occursIn needle.toList hay.toList

/-- A document whose only unit, id `greeting`, carries a `<ph>` with no
children. -/
def badPhXliffDoc : XNodes :=
  .ofList [.element "file" [("target-language", "es")]
    (.ofList [.element "trans-unit" [("id", "greeting")]
      (.ofList [.element "target" [] (.ofList [.element "ph" [("id", "0")] .nil])])])]

/-- The same malformed document with a different unit id, `farewell`. -/
def badPhXliffDoc2 : XNodes :=
  .ofList [.element "file" [("target-language", "es")]
    (.ofList [.element "trans-unit" [("id", "farewell")]
      (.ofList [.element "target" [] (.ofList [.element "ph" [("id", "0")] .nil])])])]

/-- C6 counterexample: a zero-child `<ph>` is indeed a fatal parse error, but
the error message does *not* name the offending unit — it is the fixed string
`Expected <ph> to have exactly one text node`, which does not contain the unit
id `greeting` and is identical for a unit named `farewell`. -/
theorem claim_C6_counterexample :
    parseXlif badPhXliffDoc = .error "Expected <ph> to have exactly one text node"
    ∧ parseXlif badPhXliffDoc2 = .error "Expected <ph> to have exactly one text node"
    ∧ strOccurs "greeting" "Expected <ph> to have exactly one text node" = false :=
  ⟨rfl, rfl, rfl⟩

/-- C6 as amended: inside a unit, a `<ph>` element is accepted iff it has
exactly one child and that child is a text node, whose value becomes the
placeholder payload; otherwise it is the fatal error
`Expected <ph> to have exactly one text node` (which does not name the unit);
any element child that is not a `<ph>` is the fatal error
`Unexpected node in <container>: 1 tag`; a text child becomes a text run. -/
theorem claim_C6_phShape (container : String) (attrs : List (String × String))
    (phChildren rest : XNodes) :
    (∀ v, phChildren = .cons (.text v) .nil →
      parseUnitContents container (.cons (.element "ph" attrs phChildren) rest) =
        (parseUnitContents container rest).map (fun l => Content.ph v :: l))
    ∧ ((∀ v, phChildren ≠ .cons (.text v) .nil) →
      parseUnitContents container (.cons (.element "ph" attrs phChildren) rest) =
        .error "Expected <ph> to have exactly one text node")
    ∧ (∀ tag a2 cs2, tag ≠ "ph" →
      parseUnitContents container (.cons (.element tag a2 cs2) rest) =
        .error ("Unexpected node in <" ++ container ++ ">: 1 " ++ tag))
    ∧ (∀ v, parseUnitContents container (.cons (.text v) rest) =
        (parseUnitContents container rest).map (fun l => Content.text v :: l)) := by
  refine ⟨?_, ?_, ?_, ?_⟩
  · intro v h
    subst h
    rfl
  · intro h
    rcases phChildren with _ | ⟨c, cs⟩
    · rfl
    · cases c with
      | text v =>
        cases cs with
        | nil => exact absurd rfl (h v)
        | cons c2 cs2 => rfl
      | procInst t d => rfl
      | element t a cs' => rfl
  · intro tag a2 cs2 htag
    simp [parseUnitContents, htag]
  · intro v
    rfl

/-- Witness for C6 at concrete inputs: a good `<ph>`, an empty `<ph>`, and a
stray element. -/
theorem claim_C6_phShape_witness :
    parseUnitContents "trans-unit" (.cons (.element "ph" [] (.cons (.text "x") .nil)) .nil) =
      (parseUnitContents "trans-unit" .nil).map (fun l => Content.ph "x" :: l)
    ∧ parseUnitContents "trans-unit" (.cons (.element "ph" [] .nil) .nil) =
      .error "Expected <ph> to have exactly one text node"
    ∧ parseUnitContents "trans-unit" (.cons (.element "b" [] .nil) .nil) =
      .error ("Unexpected node in <" ++ "trans-unit" ++ ">: 1 " ++ "b") :=
  ⟨(claim_C6_phShape "trans-unit" [] (.cons (.text "x") .nil) .nil).1 "x" rfl,
   (claim_C6_phShape "trans-unit" [] .nil .nil).2.1 (fun v h => XNodes.noConfusion h),
   (claim_C6_phShape "trans-unit" [] .nil .nil).2.2.1 "b" [] .nil (by decide)⟩

/-! ## Claim C3 -/

/-- The translation lookup built by `transformOutput` (transform.ts lines
66–73): a fresh `Map` into which each message of the locale's list is inserted
keyed by its name; JavaScript `Map.set` overwrites an existing key. -/
def buildTranslations (msgs : List Message) : String → Option Message :=
  msgs.foldl (fun acc m => fun n => if n = m.name then some m else acc n) (fun _ => none)

/-- The first message of a duplicate-name pair. -/
def dupFirst : Message := ⟨"a", [.text "first"]⟩

/-- The second message of a duplicate-name pair. -/
def dupSecond : Message := ⟨"a", [.text "second"]⟩

/-- C3 counterexample: with two messages of the same name, the transform
engine's lookup neither rejects the later duplicate nor keeps the first
occurrence — it returns the *second* (last) occurrence. -/
theorem claim_C3_counterexample :
    buildTranslations [dupFirst, dupSecond] "a" = some dupSecond
    ∧ dupSecond ≠ dupFirst :=
  ⟨rfl, by decide⟩

/-- C3 as amended: duplicate resolution is deterministic and consistent, but
the policy is *last wins*: the lookup built by the transform engine returns
the last message in list order bearing the requested name (equivalently, the
first in the reversed list), and it agrees with the codecs' `makeMessageIdMap`
lookup on every name. -/
theorem claim_C3_lastWins (msgs : List Message) (n : String) :
    buildTranslations msgs n = msgs.reverse.find? (fun m => m.name == n)
    ∧ buildTranslations msgs n = makeMessageIdMap msgs n :=
  ⟨makeMessageIdMap_eq_find? msgs n, rfl⟩

/-! ## Claim C5 -/

/-- Outcome of one file read: content (already parsed to a DOM tree by the
external XML layer), a missing file (`ENOENT`), or any other I/O failure. -/
inductive FsFile
  | found (doc : XNodes)
  | enoent
  | ioError (msg : String)

/-- The fixed per-locale file path `<xliffDir>/<locale>.xlf` (xliff.ts lines
74–77). -/
def xlfPath (dir locale : String) : String :=
  dir ++ "/" ++ locale ++ ".xlf"

/-- `XliffFormatter.readTranslations` (xliff.ts lines 69–94) over an abstract
file system: for each target locale read `<dir>/<locale>.xlf`; `ENOENT` means
the locale is skipped (no bundle); any other I/O failure fails the whole
operation; otherwise the file is parsed (parse failures also propagate). -/
def readTranslations (targetLocales : List String) (dir : String) (fs : String → FsFile) :
    Except String (List Bundle) :=
  match targetLocales with
  | [] => .ok []
  | locale :: rest =>
    match fs (xlfPath dir locale) with
    | .enoent => readTranslations rest dir fs
    | .ioError m => .error m
    | .found doc => do
      let bundle ← parseXlif doc
      let bundles ← readTranslations rest dir fs
      .ok (bundle :: bundles)

/-- The read path's result depends on the file system only at the paths
`<dir>/<locale>.xlf` of the configured target locales. -/
theorem readTranslations_congr (locales : List String) (dir : String)
    (fs fs' : String → FsFile)
    (hagree : ∀ loc ∈ locales, fs (xlfPath dir loc) = fs' (xlfPath dir loc)) :
    readTranslations locales dir fs = readTranslations locales dir fs' := by
  induction locales with
  | nil => rfl
  | cons a rest ih =>
    have ha := hagree a (by simp)
    have hrest := ih (fun loc hloc => hagree loc (by simp [hloc]))
    simp only [readTranslations, ha, hrest]

/-- C5: the read path consults exactly the files `<dir>/<locale>.xlf` (its
result depends on the file system only at those paths); a locale whose file is
missing is silently skipped and contributes no bundle; a locale whose read
fails with any other I/O error makes the whole read fail. -/
theorem claim_C5_readTranslations (locales : List String) (dir l : String)
    (fs fs' : String → FsFile)
    (hagree : ∀ loc ∈ locales, fs (xlfPath dir loc) = fs' (xlfPath dir loc))
    (hmem : l ∈ locales) :
    readTranslations locales dir fs = readTranslations locales dir fs'
    ∧ (fs (xlfPath dir l) = .enoent →
        readTranslations locales dir fs = readTranslations (locales.erase l) dir fs)
    ∧ (∀ m, fs (xlfPath dir l) = .ioError m →
        ∃ e, readTranslations locales dir fs = .error e) := by
  induction locales with
  | nil => cases hmem
  | cons a rest ih =>
    refine ⟨readTranslations_congr (a :: rest) dir fs fs' hagree, ?_, ?_⟩
    · intro henoent
      rcases eq_or_ne a l with rfl | hne
      · simp only [readTranslations, henoent, List.erase_cons_head]
      · have hl : l ∈ rest := by
          rcases List.mem_cons.mp hmem with h | h
          · exact absurd h.symm hne
          · exact h
        have ihrec := (ih (fun loc hloc => hagree loc (by simp [hloc])) hl).2.1 henoent
        rw [List.erase_cons_tail (by simpa using hne)]
        simp only [readTranslations, ihrec]
    · intro m hio
      rcases eq_or_ne a l with rfl | hne
      · exact ⟨m, by simp only [readTranslations, hio]⟩
      · have hl : l ∈ rest := by
          rcases List.mem_cons.mp hmem with h | h
          · exact absurd h.symm hne
          · exact h
        obtain ⟨e, he⟩ := (ih (fun loc hloc => hagree loc (by simp [hloc])) hl).2.2 m hio
        rcases hfa : fs (xlfPath dir a) with doc | _ | m2
        · rcases hparse : parseXlif doc with pe | pb
          · exact ⟨pe, by simp [readTranslations, hfa, hparse, Except.bind, Bind.bind]⟩
          · exact ⟨e, by simp [readTranslations, hfa, hparse, he, Except.bind, Bind.bind]⟩
        · exact ⟨e, by simp only [readTranslations, hfa, he]⟩
        · exact ⟨m2, by simp only [readTranslations, hfa]⟩

/-- A sample file system: the Spanish file is missing, the French file fails
with a disk error, everything else exists and is empty. -/
def sampleFs : String → FsFile := fun p =>
  if p = "xliff/es.xlf" then .enoent
  else if p = "xliff/fr.xlf" then .ioError "disk failure"
  else .found .nil

/-- Witness for C5: with the sample file system, the missing Spanish file is
skipped, and the French I/O failure fails the whole read. -/
theorem claim_C5_readTranslations_witness :
    readTranslations ["es", "fr"] "xliff" sampleFs =
      readTranslations (["es", "fr"].erase "es") "xliff" sampleFs
    ∧ (∃ e, readTranslations ["es", "fr"] "xliff" sampleFs = .error e) :=
  ⟨(claim_C5_readTranslations ["es", "fr"] "xliff" "es" sampleFs sampleFs
      (fun _ _ => rfl) (by decide)).2.1 rfl,
   (claim_C5_readTranslations ["es", "fr"] "xliff" "fr" sampleFs sampleFs
      (fun _ _ => rfl) (by decide)).2.2 "disk failure" rfl⟩

/-! ## Claim C9 -/

/-- The three whitespace strings the writers ever insert between structural
siblings: `indent` is called with levels 0, 1 and 2 only. -/
def sepStrings : List String := [indentText 0, indentText 1, indentText 2]

/-- The structural (non-content) elements of the two formats: every text-node
child of these is an inserted indentation separator, never message content. -/
def structuralTags : List String :=
  ["xliff", "file", "body", "trans-unit", "localizationbundle", "messages"]

/-- A node is an acceptable structural child when, if it is a text node, its
value is one of the fixed separators. -/
def sepTextOk : XNode → Bool
  | .text s => sepStrings.contains s
  | _ => true

mutual
/-- Every text node directly inside a structural element, at any depth, is one
of the fixed separator strings. -/
def sepsOkNode : XNode → Bool
  | .element tag _ cs => if structuralTags.contains tag then sepsOkList cs else true
  | _ => true
/-- `sepsOkNode` over a sibling list. -/
def sepsOkList : XNodes → Bool
  | .nil => true
  | .cons n rest => sepTextOk n && sepsOkNode n && sepsOkList rest
end

theorem sepsOkList_append : ∀ (a b : XNodes),
    sepsOkList (XNodes.append a b) = (sepsOkList a && sepsOkList b)
  | .nil, b => rfl
  | .cons n rest, b => by
    simp [sepsOkList, XNodes.append, sepsOkList_append rest b, Bool.and_assoc]

/-- The children of every encoded `<trans-unit>` pass the separator check. -/
theorem sepsOkList_transUnit (m : ProgramMessage) (tr : Option Message) :
    sepsOkList (childrenOf (encodeTransUnit m tr)) = true := by
  unfold encodeTransUnit
  rcases tr with _ | t <;>
    rcases hd : m.descStack with _ | ⟨d, ds⟩ <;>
      simp [hd, sepsOkList, sepsOkList_append, sepTextOk, sepsOkNode, sepStrings,
        structuralTags, indentText]

/-- The interleaved unit list of the XLIFF `body` passes the separator
check. -/
theorem sepsOkList_encodeUnits (sm : List ProgramMessage) (lookup : String → Option Message) :
    sepsOkList (encodeUnits sm lookup) = true := by
  induction sm with
  | nil => rfl
  | cons m rest ih =>
    have hunit := sepsOkList_transUnit m (lookup m.name)
    simp only [encodeUnits, sepsOkList]
    rw [show encodeTransUnit m (lookup m.name) =
      XNode.element "trans-unit" [("id", m.name)] (childrenOf (encodeTransUnit m (lookup m.name)))
      from by unfold encodeTransUnit; rfl]
    simp [sepTextOk, sepsOkNode, structuralTags, hunit, ih, sepStrings, indentText]

/-- The interleaved `<msg>` list of the XLB `messages` element passes the
separator check. -/
theorem sepsOkList_encodeXlbMsgList (sm : List ProgramMessage) :
    sepsOkList (encodeXlbMsgList sm) = true := by
  induction sm with
  | nil => rfl
  | cons m rest ih =>
    simp only [encodeXlbMsgList, sepsOkList]
    rw [show encodeXlbMsg m = XNode.element "msg"
      (("name", m.name) ::
        (if m.descStack = [] then [] else [("desc", String.intercalate " / " m.descStack)]))
      (encodeXlbContents m.contents) from rfl]
    simp [sepTextOk, sepsOkNode, structuralTags, ih, sepStrings, indentText]

/-- C9 as amended: serialization is deterministic (the write paths are pure
functions of their inputs in this embedding), and every whitespace text node
inserted between structural sibling boundaries is one newline followed by two
spaces per the *hard-coded level argument* of the `indent` helper — i.e. one
of `"\n"`, `"\n  "`, `"\n    "` — not per actual nesting depth. -/
theorem claim_C9_whitespace (sm : List ProgramMessage) (sl tl : String) (tm : List Message) :
    sepsOkList (encodeLocale sm sl tl tm) = true
    ∧ sepsOkList (encodeXlb sm sl) = true := by
  constructor
  · simp [encodeLocale, encodeXliffRoot, encodeFile, encodeBody, sepsOkList, sepsOkNode,
      sepTextOk, structuralTags, sepStrings, indentText,
      sepsOkList_encodeUnits sm (makeMessageIdMap tm)]
  · simp [encodeXlb, encodeXlbBundle, encodeXlbMessagesNode, sepsOkList, sepsOkList_append,
      sepsOkNode, sepTextOk, structuralTags, sepStrings, indentText,
      sepsOkList_encodeXlbMsgList sm]

/-- C9 counterexample: the claimed convention — two spaces per *nesting
level* — is violated: `<file>` is nested one level below the `<xliff>` root,
so the convention demands the separator `"\n  "` before it, but the writer
indents every level-0 call site with a bare newline: the separator text node
preceding `<file>` is `"\n"`. -/
theorem claim_C9_counterexample :
    childrenOf (encodeXliffRoot [] "en" "es" (makeMessageIdMap []))
      = .cons (.text (indentText 0))
          (.cons (encodeFile [] "en" "es" (makeMessageIdMap []))
            (.cons (.text (indentText 0)) .nil))
    ∧ indentText 0 = "\n"
    ∧ indentText 0 ≠ "\n  "
    ∧ indentText 0 ≠ "\n    " :=
  ⟨rfl, rfl, by decide, by decide⟩

/-! ## The transform engine's template language

Shallow embedding of the TypeScript expression forms `recursivelyFlattenTemplate`
and `makeTemplateLiteral` (transform.ts lines 389–429 and 516–543) operate on:
template literals (`NoSubstitutionTemplateLiteral` or head + spans), and the
expression forms the flattener distinguishes — string literals, untagged
template literals, `html`-tagged templates, identifiers, and arbitrary other
expressions with sub-expressions. -/

mutual
/-- A template literal: either without substitutions, or a head string plus
spans. -/
inductive Tmpl
  | noSub (text : String)
  | sub (head : String) (spans : Spans)
/-- The spans of a template expression: an expression plus the literal text
that follows it. -/
inductive Spans
  | nil
  | cons (e : Expr) (lit : String) (rest : Spans)
/-- The expression forms the transformer distinguishes. -/
inductive Expr
  | strLit (s : String)
  | tmplE (t : Tmpl)
  | litTmpl (t : Tmpl)
  | ident (name : String)
  | call (fn : String) (args : EList)
/-- Argument lists of a generic expression. -/
inductive EList
  | nil
  | cons (e : Expr) (rest : EList)
end

/-- A fragment produced by `recursivelyFlattenTemplate`: a string or a live
expression slot. -/
inductive Frag
  | str (s : String)
  | expr (e : Expr)

/-- The accumulator pass of `makeTemplateLiteral` (transform.ts lines
516–543), processed right to left: contiguous strings collapse into the
following span's literal (or into the head). -/
def makeAux : List Frag → String × Spans
  | [] => ("", .nil)
  | .str s :: r =>
    let p := makeAux r
    (s ++ p.1, p.2)
  | .expr e :: r =>
    let p := makeAux r
    ("", .cons e p.1 p.2)

/-- `makeTemplateLiteral` (transform.ts lines 516–543): build the simplest
template literal from a fragment list; with no expressions the result is a
no-substitution literal. -/
def makeTemplateLiteral (fr : List Frag) : Tmpl :=
  match makeAux fr with
  | (h, .nil) => .noSub h
  | (h, sp) => .sub h sp

mutual
/-- The transformer's recursive visit (transform.ts `Transformer.visitNode`)
restricted to the expression forms of this language: a lit-tagged template is
flattened and rebuilt (lines 138–146), a plain template and a generic call
have their children visited, strings and identifiers pass through. -/
def visitE : Expr → Expr
  | .strLit s => .strLit s
  | .ident n => .ident n
  | .tmplE t => .tmplE (visitT t)
  | .litTmpl t => .litTmpl (makeTemplateLiteral (recursivelyFlattenTemplate t true))
  | .call f args => .call f (visitL args)
/-- Visiting a template literal node (default `visitEachChild` behaviour). -/
def visitT : Tmpl → Tmpl
  | .noSub s => .noSub s
  | .sub h sp => .sub h (visitSpans sp)
/-- Visiting each span's expression. -/
def visitSpans : Spans → Spans
  | .nil => .nil
  | .cons e l r => .cons (visitE e) l (visitSpans r)
/-- Visiting each argument of a generic expression. -/
def visitL : EList → EList
  | .nil => .nil
  | .cons e r => .cons (visitE e) (visitL r)
/-- `Transformer.recursivelyFlattenTemplate` (transform.ts lines 389–429):
deconstruct a template into strings and expressions; a string literal, an
untagged template (flattened with `isLit = false`), or — when `isLit` — a
lit-tagged template, is inlined ("subsumed"); otherwise the expression is
transformed by the visitor and the subsumption is retried; if it still fails
the transformed expression is kept as a live slot. Each constructor case below
resolves the source's subsume / visit / subsume-again sequence (see
`flattenSpans_eq_processSpan` for the proof that it coincides with the
source-shaped `processSpan`). -/
def recursivelyFlattenTemplate : Tmpl → Bool → List Frag
  | .noSub s, _ => [.str s]
  | .sub h sp, isLit => .str h :: flattenSpans sp isLit
/-- The per-span loop of `recursivelyFlattenTemplate` (lines 413–427). -/
def flattenSpans : Spans → Bool → List Frag
  | .nil, _ => []
  | .cons e l r, isLit =>
    (match e with
     | .strLit s => [Frag.str s]
     | .tmplE t => recursivelyFlattenTemplate t false
     | .litTmpl t =>
       if isLit then recursivelyFlattenTemplate t true
       else [Frag.expr (.litTmpl (makeTemplateLiteral (recursivelyFlattenTemplate t true)))]
     | .ident n => [Frag.expr (.ident n)]
     | .call f args => [Frag.expr (.call f (visitL args))])
    ++ (Frag.str l :: flattenSpans r isLit)
end

/-- The `subsume` closure of `recursivelyFlattenTemplate` (transform.ts lines
398–411): a string literal is inlined as text; an untagged template literal is
inlined by flattening with `isLit = false`; a lit-tagged template is inlined
(flattened with `true`) only when the surrounding template is lit-tagged. -/
def subsume (isLit : Bool) : Expr → Option (List Frag)
  | .strLit s => some [.str s]
  | .tmplE t => some (recursivelyFlattenTemplate t false)
  | .litTmpl t => if isLit then some (recursivelyFlattenTemplate t true) else none
  | _ => none

/-- The source-shaped per-span processing (transform.ts lines 413–425): try to
subsume, else visit and retry, else keep the visited expression as a slot. -/
def processSpan (isLit : Bool) (e : Expr) : List Frag :=
  match subsume isLit e with
  | some fr => fr
  | none =>
    match subsume isLit (visitE e) with
    | some fr => fr
    | none => [Frag.expr (visitE e)]

/-- The executable case-fused `flattenSpans` coincides with the source-shaped
subsume / visit / subsume-again sequence on every span. -/
theorem flattenSpans_eq_processSpan (isLit : Bool) (e : Expr) (l : String) (r : Spans) :
    flattenSpans (.cons e l r) isLit =
      processSpan isLit e ++ (Frag.str l :: flattenSpans r isLit) := by
  cases e with
  | strLit s => rfl
  | tmplE t => rfl
  | litTmpl t => cases isLit <;> rfl
  | ident n => rfl
  | call f args => rfl

/-- The expressions kept as live slots in a fragment list. -/
def fragExprs (fr : List Frag) : List Expr :=
  fr.filterMap (fun f => match f with | .str _ => none | .expr e => some e)

/-- The expressions of a span list, in order. -/
def spanExprs : Spans → List Expr
  | .nil => []
  | .cons e _ r => e :: spanExprs r

theorem spanExprs_makeAux : ∀ (fr : List Frag), spanExprs (makeAux fr).2 = fragExprs fr
  | [] => rfl
  | .str s :: r => by
    simp only [makeAux, fragExprs, List.filterMap_cons]
    exact spanExprs_makeAux r
  | .expr e :: r => by
    simp only [makeAux, fragExprs, List.filterMap_cons, spanExprs]
    exact congrArg (e :: ·) (spanExprs_makeAux r)

/-- The interleaving a stable span list flattens to: each expression kept,
each literal emitted. -/
def interleaveSpans : Spans → List Frag
  | .nil => []
  | .cons e l r => .expr e :: .str l :: interleaveSpans r

/-- On spans whose expressions are all stable (not subsumable at this flag and
fixed by the visitor), flattening emits exactly the interleaving. -/
theorem flattenSpans_stable : ∀ (sp : Spans) (b : Bool),
    (∀ e ∈ spanExprs sp, subsume b e = none ∧ visitE e = e) →
    flattenSpans sp b = interleaveSpans sp
  | .nil, _, _ => rfl
  | .cons e l r, b, h => by
    have h1 := h e (by simp [spanExprs])
    have hr := flattenSpans_stable r b (fun x hx => h x (by simp [spanExprs, hx]))
    rw [flattenSpans_eq_processSpan, hr]
    simp [processSpan, h1.1, h1.2, interleaveSpans]

theorem makeAux_interleave : ∀ (sp : Spans), makeAux (interleaveSpans sp) = ("", sp)
  | .nil => rfl
  | .cons e l r => by
    simp [interleaveSpans, makeAux, makeAux_interleave r]

/-- Re-flattening the output of `makeTemplateLiteral` over stable fragments
rebuilds the same template. -/
theorem make_flatten_make (b : Bool) (fr : List Frag)
    (h : ∀ e ∈ fragExprs fr, subsume b e = none ∧ visitE e = e) :
    makeTemplateLiteral
        (recursivelyFlattenTemplate (makeTemplateLiteral fr) b) = makeTemplateLiteral fr := by
  rcases hma : makeAux fr with ⟨h0, sp⟩
  have hsp : spanExprs sp = fragExprs fr := by
    have := spanExprs_makeAux fr
    rw [hma] at this
    exact this
  cases sp with
  | nil =>
    unfold makeTemplateLiteral
    rw [hma]
    simp [recursivelyFlattenTemplate, makeAux]
  | cons e l r =>
    unfold makeTemplateLiteral
    rw [hma]
    simp only [recursivelyFlattenTemplate]
    rw [flattenSpans_stable (.cons e l r) b (fun x hx => h x (by rw [← hsp]; exact hx))]
    simp [makeAux, makeAux_interleave]

/-! ## Claim C8 -/

/-- C8 as amended: flattening-then-rebuilding is idempotent *provided* every
expression slot kept by the first flattening is stable — not subsumable at the
outer flag and left unchanged by the transformer's recursive visit. (The
counterexample shows the unrestricted claim fails: a lit-tagged template
nested inside an untagged template is kept by the first pass, because the
inner flattening runs with `isLit = false`, and inlined by the second.) -/
theorem claim_C8_flattenIdempotent (t : Tmpl) (b : Bool)
    (hstable : ∀ e ∈ fragExprs (recursivelyFlattenTemplate t b),
      subsume b e = none ∧ visitE e = e) :
    makeTemplateLiteral (recursivelyFlattenTemplate
        (makeTemplateLiteral (recursivelyFlattenTemplate t b)) b)
      = makeTemplateLiteral (recursivelyFlattenTemplate t b) :=
  make_flatten_make b (recursivelyFlattenTemplate t b) hstable

/-- Witness template for C8: `html`-tagged ``a${x}b`` — its only slot is an
identifier, which is stable. -/
def stableSampleTmpl : Tmpl := .sub "a" (.cons (.ident "x") "b" .nil)

/-- Witness for C8 at the stable sample. -/
theorem claim_C8_flattenIdempotent_witness :
    makeTemplateLiteral (recursivelyFlattenTemplate
        (makeTemplateLiteral (recursivelyFlattenTemplate stableSampleTmpl true)) true)
      = makeTemplateLiteral (recursivelyFlattenTemplate stableSampleTmpl true) :=
  claim_C8_flattenIdempotent stableSampleTmpl true (by
    intro e he
    have hfr : fragExprs (recursivelyFlattenTemplate stableSampleTmpl true) =
        [Expr.ident "x"] := rfl
    rw [hfr] at he
    have he2 := List.mem_singleton.mp he
    subst he2
    exact ⟨rfl, rfl⟩)

/-- C8 counterexample input: `html`-tagged ``A${ `${html`<b>`}` }B`` — an
untagged template whose slot is a lit-tagged template, all inside a lit-tagged
template. -/
def nestedLitTmpl : Tmpl :=
  .sub "A" (.cons (.tmplE (.sub "" (.cons (.litTmpl (.noSub "<b>")) "" .nil))) "B" .nil)

/-- C8 counterexample: the first flattening of `nestedLitTmpl` (at
`isLit = true`) keeps the inner `html` template as a live slot (the inner
flattening ran with `isLit = false`), but re-flattening the result inlines it:
the second pass produces ``A<b>B`` with no slots — flattening is not
idempotent as claimed. -/
theorem claim_C8_counterexample :
    makeTemplateLiteral (recursivelyFlattenTemplate nestedLitTmpl true)
      = .sub "A" (.cons (.litTmpl (.noSub "<b>")) "B" .nil)
    ∧ makeTemplateLiteral (recursivelyFlattenTemplate
        (makeTemplateLiteral (recursivelyFlattenTemplate nestedLitTmpl true)) true)
      = .noSub "A<b>B"
    ∧ Tmpl.noSub "A<b>B" ≠ .sub "A" (.cons (.litTmpl (.noSub "<b>")) "B" .nil) :=
  ⟨rfl, rfl, fun h => Tmpl.noConfusion h⟩

/-! ## The msg-call rewrite (`Transformer.replaceMsgCall`) -/

/-- The template argument after extraction: a plain string literal or a
template literal. -/
inductive MsgTemplate
  | str (s : String)
  | tpl (t : Tmpl)

/-- The result of `extractTemplate` (program-analysis.ts, not among the
provided sources): whether the call is `html`-tagged, the parameter names when
the template argument is an arrow function (`params.isSome` iff it is), and
the template itself. -/
structure ExtractedTemplate where
  isLitTagged : Bool
  params : Option (List String)
  template : MsgTemplate

/-- The result of `extractOptions`: an optional explicit id override and the
optional ordered argument expressions. -/
structure MsgOptions where
  id : Option String
  args : Option (List Expr)

/-- The transformer's two error classes: `KnownError` (user-facing) and plain
`Error` (internal fault). -/
inductive TransformErr
  | known (msg : String)
  | internal (msg : String)
deriving DecidableEq, Repr

/-- A msg call's replacement: a string literal, a bare template literal, or an
`html`-tagged template (`tagLit`). -/
inductive Replacement
  | strLit (s : String)
  | tmpl (t : Tmpl)
  | litTagged (t : Tmpl)

mutual
/-- The literal text chunks of a template, in order (head then span
literals). -/
def tmplTexts : Tmpl → List String
  | .noSub s => [s]
  | .sub h sp => h :: spanTexts sp
/-- The literal text chunks of a span list. -/
def spanTexts : Spans → List String
  | .nil => []
  | .cons _ l r => l :: spanTexts r
end

/-- Modelled from the spec (§3): `generateMsgIdFromAstNode` from the
repository's `program-analysis.ts`, which is not among the provided sources —
a deterministic function of the template's structural text shape and the
rich-content flag. -/
def generateMsgId (template : MsgTemplate) (isLitTagged : Bool) : String :=
  (if isLitTagged then "h" else "s") ++
    String.intercalate "\x00"
      (match template with
       | .str s => [s]
       | .tpl t => tmplTexts t)

/-- Modelled from the spec (§4.3.1, "escaped for safe literal embedding"):
`escapeStringToEmbedInTemplateLiteral` from the repository's `typescript.ts`,
which is not among the provided sources — backslashes, backticks and dollar
signs are backslash-escaped so the text can sit inside a template literal. -/
def escapeTLChar (c : Char) : List Char :=
  if c = '\\' ∨ c = Char.ofNat 96 ∨ c = '$' then ['\\', c] else [c]

/-- String-level escaping for template-literal embedding (modelled, see
`escapeTLChar`). -/
def escapeStringToEmbedInTemplateLiteral (s : String) : String :=
  ⟨s.toList.flatMap escapeTLChar⟩

/-- One piece of the translated template-literal body (transform.ts lines
285–289): a text run is escaped, a placeholder payload is embedded verbatim. -/
def msgContentPiece : Content → String
  | .text s => escapeStringToEmbedInTemplateLiteral s
  | .ph u => u

/-- The translated template-literal body (transform.ts lines 284–290): the
pieces joined with no separator. -/
def templateLiteralBody (tr : Message) : String :=
  String.join (tr.contents.map msgContentPiece)

/-- Split a character list at the first `${`, returning the prefix and the
remainder after the opening. -/
def splitAtOpen : List Char → Option (List Char × List Char)
  | [] => none
  | [_] => none
  | c1 :: c2 :: rest =>
    if c1 = '$' ∧ c2 = Char.ofNat 123 then some ([], rest)
    else (splitAtOpen (c2 :: rest)).map (fun p => (c1 :: p.1, p.2))

/-- Split a character list at the first closing brace. -/
def splitAtClose : List Char → Option (List Char × List Char)
  | [] => none
  | c :: rest =>
    if c = Char.ofNat 125 then some ([], rest)
    else (splitAtClose rest).map (fun p => (c :: p.1, p.2))

/-- Fuel-bounded scan of a template-literal body into head text and
identifier spans. -/
def parseTLRun : Nat → List Char → String × Spans
  | 0, cs => (⟨cs⟩, .nil)
  | fuel + 1, cs =>
    match splitAtOpen cs with
    | none => (⟨cs⟩, .nil)
    | some (before, rest) =>
      match splitAtClose rest with
      | none => (⟨cs⟩, .nil)
      | some (inner, after) =>
        let p := parseTLRun fuel after
        (⟨before⟩, .cons (.ident ⟨inner⟩) p.1 p.2)

/-- Model of `parseStringAsTemplateLiteral` (transform.ts lines 484–508): the
external TypeScript parser applied to a template-literal body; `${name}`
slots become identifier expressions. -/
def parseStringAsTemplateLiteral (body : String) : Tmpl :=
  match parseTLRun body.toList.length body.toList with
  | (h, .nil) => .noSub h
  | (h, sp) => .sub h sp

/-- The translation-application step of `replaceMsgCall` (transform.ts lines
281–298): when a lookup is configured and contains the effective identifier,
the source template is replaced by the translated body parsed as a template
literal; otherwise the source template is kept. -/
def appliedTemplate (translations : Option (String → Option Message)) (eid : String)
    (template : MsgTemplate) : MsgTemplate :=
  match translations with
  | some lookup =>
    match lookup eid with
    | some tr => .tpl (parseStringAsTemplateLiteral (templateLiteralBody tr))
    | none => template
  | none => template

/-- The span traversal of `substituteIdentsInExpressions` (transform.ts lines
349–372): every span expression must be a bare identifier bound in the
parameter map, and is replaced by the mapped expression. -/
def substSpans : Spans → List (String × Expr) → Except TransformErr Spans
  | .nil, _ => .ok .nil
  | .cons e l r, pv =>
    match e with
    | .ident name =>
      match (pv.find? (fun p => p.1 = name)).map (·.2) with
      | some value => (substSpans r pv).map (fun r2 => .cons value l r2)
      | none => .error (.known "No value provided")
    | _ => .error (.known "Expected expression to be identifier")

/-- `Transformer.substituteIdentsInExpressions` (transform.ts lines 349–372). -/
def substituteIdentsInExpressions (t : Tmpl) (paramValues : List (String × Expr)) :
    Except TransformErr Tmpl :=
  match t with
  | .noSub s => .ok (.noSub s)
  | .sub h sp => (substSpans sp paramValues).map (fun sp2 => .sub h sp2)

/-- `Transformer.replaceMsgCall` (transform.ts lines 257–339) after
extraction: compute the effective identifier (explicit override or the
shape-derived id), apply the translation when available, substitute arrow
parameters positionally, return a plain string directly (rejecting a
lit-tagged string as an internal error), and otherwise flatten and rebuild,
tagging with `html` when the call was lit-tagged. The call site is always
replaced: the result is a `Replacement`, never the original call. -/
def replaceMsgCall (translations : Option (String → Option Message))
    (ext : ExtractedTemplate) (opts : MsgOptions) : Except TransformErr Replacement :=
  let eid := opts.id.getD (generateMsgId ext.template ext.isLitTagged)
  let template := appliedTemplate translations eid ext.template
  let substituted : Except TransformErr MsgTemplate :=
    match ext.params, template with
    | some paramNames, .tpl (.sub h sp) =>
      match opts.args with
      | none =>
        .error (.known "Internal error, expected paramNames and options.args to be defined")
      | some args =>
        (substituteIdentsInExpressions (.sub h sp) (paramNames.zip args)).map MsgTemplate.tpl
    | _, tmpl2 => .ok tmpl2
  match substituted with
  | .error e => .error e
  | .ok (.str s) =>
    if ext.isLitTagged then .error (.known "Internal error: string literal cannot be html-tagged")
    else .ok (.strLit s)
  | .ok (.tpl t) =>
    let t2 := makeTemplateLiteral (recursivelyFlattenTemplate t ext.isLitTagged)
    .ok (if ext.isLitTagged then .litTagged t2 else .tmpl t2)

/-! ## Claim C4 -/

/-- C4: transforming with a translation lookup that does not contain the call
site's effective identifier produces *exactly* the same replacement as the
source-locale transform (no lookup) of the same call site — the source text is
silently kept, and the call site is still replaced (the result is a
`Replacement`, never the original call). -/
theorem claim_C4_missingFallback (lookup : String → Option Message)
    (ext : ExtractedTemplate) (opts : MsgOptions)
    (h : lookup (opts.id.getD (generateMsgId ext.template ext.isLitTagged)) = none) :
    replaceMsgCall (some lookup) ext opts = replaceMsgCall none ext opts := by
  simp only [replaceMsgCall, appliedTemplate, h]

/-- A sample translation carrying the Spanish greeting. -/
def trGreeting : Message := ⟨"greeting", [.text "Hola ", .ph "<b>", .text "Mundo", .ph "</b>"]⟩

/-- The corresponding source message. -/
def srcGreeting : Message := ⟨"greeting", [.text "Hello ", .ph "<b>", .text "World", .ph "</b>"]⟩

/-- A lookup that knows only the id `other`. -/
def lookupWithoutGreeting : String → Option Message :=
  fun n => if n = "other" then some trGreeting else none

/-- Witness for C4: a rich call site with explicit id `greeting` transformed
under a lookup lacking that id equals the source-locale transform. -/
theorem claim_C4_missingFallback_witness :
    replaceMsgCall (some lookupWithoutGreeting)
        ⟨true, none, .tpl (.noSub "Hello")⟩ ⟨some "greeting", none⟩
      = replaceMsgCall none ⟨true, none, .tpl (.noSub "Hello")⟩ ⟨some "greeting", none⟩ :=
  claim_C4_missingFallback lookupWithoutGreeting
    ⟨true, none, .tpl (.noSub "Hello")⟩ ⟨some "greeting", none⟩ rfl

/-! ## Claim C2 -/

/-- The placeholder payloads of a message, in order. -/
def placeholderPayloads (m : Message) : List String :=
  m.contents.filterMap (fun c => match c with | .ph u => some u | _ => none)

theorem join_cons (a : String) (l : List String) :
    String.join (a :: l) = a ++ String.join l := by
  cases a with
  | mk d => simp [String.join_eq]; rfl

theorem mem_join_infix : ∀ (l : List String) (p : String), p ∈ l →
    ∃ pre post, String.join l = pre ++ (p ++ post)
  | [], p, h => absurd h (List.not_mem_nil p)
  | a :: rest, p, h => by
    rcases List.mem_cons.mp h with rfl | hm
    · exact ⟨"", String.join rest, by rw [join_cons]; simp⟩
    · obtain ⟨pre, post, he⟩ := mem_join_infix rest p hm
      exact ⟨a ++ pre, post, by rw [join_cons, he]; simp [String.append_assoc]⟩

/-- C2: in the msg-call rewrite's translation substitution (transform.ts lines
281–298), the template becomes the translated body in which every placeholder
payload is embedded verbatim (raw, unescaped — only text runs are escaped):
each payload of the applied translation occurs byte-identically in the output
body; and under the documented validation assumption (the comment at lines
291–294: translated placeholder contents match the source message's, only
their position may move — formalized as a permutation), every payload in the
output is verbatim a payload of the source message with the same identifier,
and none is invented or dropped. -/
theorem claim_C2_placeholderImmutability
    (lookup : String → Option Message) (eid : String) (tr srcMsg : Message)
    (template : MsgTemplate)
    (hfound : lookup eid = some tr)
    (hvalidated : (placeholderPayloads tr).Perm (placeholderPayloads srcMsg)) :
    appliedTemplate (some lookup) eid template =
      .tpl (parseStringAsTemplateLiteral (templateLiteralBody tr))
    ∧ (∀ p ∈ placeholderPayloads tr,
        ∃ pre post, templateLiteralBody tr = pre ++ (p ++ post))
    ∧ (∀ p ∈ placeholderPayloads tr, p ∈ placeholderPayloads srcMsg)
    ∧ (∀ p ∈ placeholderPayloads srcMsg, p ∈ placeholderPayloads tr) := by
  refine ⟨by simp [appliedTemplate, hfound], ?_, ?_, ?_⟩
  · intro p hp
    have hpiece : p ∈ tr.contents.map msgContentPiece := by
      obtain ⟨c, hc, hcp⟩ := List.mem_filterMap.mp hp
      cases c with
      | text s => simp at hcp
      | ph u =>
        have hup : msgContentPiece (.ph u) = p := by simpa using hcp
        exact List.mem_map.mpr ⟨.ph u, hc, hup⟩
    exact mem_join_infix _ p hpiece
  · exact fun p hp => hvalidated.mem_iff.mp hp
  · exact fun p hp => hvalidated.mem_iff.mpr hp

/-- A lookup containing the Spanish greeting. -/
def lookupWithGreeting : String → Option Message :=
  fun n => if n = "greeting" then some trGreeting else none

/-- Witness for C2 at the spec's greeting scenario. -/
theorem claim_C2_placeholderImmutability_witness :
    appliedTemplate (some lookupWithGreeting) "greeting" (.str "Hello <b>World</b>") =
      .tpl (parseStringAsTemplateLiteral (templateLiteralBody trGreeting))
    ∧ (∀ p ∈ placeholderPayloads trGreeting,
        ∃ pre post, templateLiteralBody trGreeting = pre ++ (p ++ post))
    ∧ (∀ p ∈ placeholderPayloads trGreeting, p ∈ placeholderPayloads srcGreeting)
    ∧ (∀ p ∈ placeholderPayloads srcGreeting, p ∈ placeholderPayloads trGreeting) :=
  claim_C2_placeholderImmutability lookupWithGreeting "greeting" trGreeting srcGreeting
    (.str "Hello <b>World</b>") rfl (by decide)

/-! ## The tagged-call dispatch of `Transformer.visitNode` (claim C7)

The transformer recognizes the library's API calls by the special property
tags on their types (`typeHasProperty`, transform.ts lines 462–469), not by
the callee's name; the model therefore carries the recognized tag on the call
node itself. -/

/-- The special type tags the call dispatch tests, in source order
(transform.ts lines 158–210). -/
inductive LitApiTag
  | configureTransformLocalization
  | configureLocalization
  | localizedMixin
deriving DecidableEq, Repr

mutual
/-- A node of the file being transformed, restricted to what the call
dispatch distinguishes: a call whose type carries one of the special tags, the
object-literal replacement the transform itself constructs, a string literal,
and anything else (children visited recursively). -/
inductive TNode
  | taggedCall (tag : LitApiTag) (args : TNodes)
  | objLiteralGetLocale (locale : String)
  | strLitNode (s : String)
  | other (id : Nat) (children : TNodes)
/-- A sibling list of transform nodes. -/
inductive TNodes
  | nil
  | cons (head : TNode) (tail : TNodes)
end

/-- Number of arguments (for the Localized-mixin arity error message). -/
def TNodes.length : TNodes → Nat
  | .nil => 0
  | .cons _ rest => rest.length + 1

mutual
/-- The CallExpression branch of `Transformer.visitNode` (transform.ts lines
158–210), with the default recursion into children:
`configureTransformLocalization(...)` becomes the object literal
`{getLocale: () => locale}` (lines 160–182); `configureLocalization(...)` is a
fatal `KnownError` (lines 185–197); `Localized(x)` becomes its sole argument,
any other arity being a `KnownError` (lines 200–209). `fileName` is the
transformer's source file (`Transformer.sourceFile`), threaded to show which
data the raised errors may depend on. -/
def visitTNode (locale fileName : String) : TNode → Except TransformErr TNode
  | .taggedCall .configureTransformLocalization _ => .ok (.objLiteralGetLocale locale)
  | .taggedCall .configureLocalization _ =>
    .error (.known ("Cannot use configureLocalization in transform mode. " ++
      "Use configureTransformLocalization instead."))
  | .taggedCall .localizedMixin args =>
    match args with
    | .cons arg .nil => .ok arg
    | _ =>
      .error (.known ("Expected Localized mixin call to have one argument, got " ++
        toString args.length))
  | .strLitNode s => .ok (.strLitNode s)
  | .objLiteralGetLocale l => .ok (.objLiteralGetLocale l)
  | .other i children => (visitTNodes locale fileName children).map (.other i)
/-- `visitEachChild` over a sibling list; an error in any child aborts the
whole file's transform. -/
def visitTNodes (locale fileName : String) : TNodes → Except TransformErr TNodes
  | .nil => .ok .nil
  | .cons n rest =>
    match visitTNode locale fileName n with
    | .error e => .error e
    | .ok n2 =>
      match visitTNodes locale fileName rest with
      | .error e => .error e
      | .ok rest2 => .ok (.cons n2 rest2)
end

/-- C7 counterexample: the error raised for a `configureLocalization` call is
a `KnownError` with a fixed message; transforming in file `my-app.ts` yields a
message that does not contain `my-app.ts` — the error does *not* identify the
offending file, contrary to the claim. -/
theorem claim_C7_counterexample :
    visitTNode "es" "my-app.ts" (.taggedCall .configureLocalization .nil)
      = .error (.known ("Cannot use configureLocalization in transform mode. " ++
          "Use configureTransformLocalization instead."))
    ∧ strOccurs "my-app.ts" ("Cannot use configureLocalization in transform mode. " ++
        "Use configureTransformLocalization instead.") = false :=
  ⟨rfl, rfl⟩

/-- C7 as amended: a call recognized (by its special type tag, not by name) as
the run-time-configuration entry point always raises the fatal user-facing
`KnownError` `Cannot use configureLocalization in transform mode. Use
configureTransformLocalization instead.` — never an internal error and never a
rewritten output node (the error also aborts the transform of any file
containing such a call) — but the message is a fixed string independent of
the transformer's source file, so it does not identify the offending file. -/
theorem claim_C7_configureLocalization (locale fileName : String) (args : TNodes)
    (i : Nat) (rest : TNodes) :
    visitTNode locale fileName (.taggedCall .configureLocalization args)
      = .error (.known ("Cannot use configureLocalization in transform mode. " ++
          "Use configureTransformLocalization instead."))
    ∧ (∀ out, visitTNode locale fileName (.taggedCall .configureLocalization args) ≠ .ok out)
    ∧ visitTNodes locale fileName
        (.cons (.taggedCall .configureLocalization args) rest)
      = .error (.known ("Cannot use configureLocalization in transform mode. " ++
          "Use configureTransformLocalization instead."))
    ∧ visitTNode locale fileName
        (.other i (.cons (.taggedCall .configureLocalization args) rest))
      = .error (.known ("Cannot use configureLocalization in transform mode. " ++
          "Use configureTransformLocalization instead.")) := by
  refine ⟨rfl, ?_, rfl, rfl⟩
  intro out h
  exact Except.noConfusion h

end LitLocalize
